import Mathlib

/-!
Shallow embedding of the Magnus ADS remote-query client
(`src/api.ts`, `src/queryRunner.ts`, `src/utils.ts`,
`src/serializers/exportToCsv.ts`, `src/serializers/exportToJson.ts`)
together with theorems settling the specification claims about it.

JavaScript machine integers and floats occurring in the relevant code paths
are integer-valued (row counts, indices, column-type tags, date fields), so
numbers are modelled as `Nat`/`Int`.  JavaScript strings are modelled as
Lean `String`.
-/

namespace Magnus

/-- A JavaScript runtime value as it occurs in raw result-set cells:
`null`, `undefined`, booleans, (integer-valued) numbers and strings. -/
inductive JValue where
  | null
  | undef
  | bool (b : Bool)
  | num (n : Int)
  | str (s : String)
deriving DecidableEq, Repr

/-- JavaScript `String(value)` on a defined `JValue` (natural textual
representation; for `null`/`undefined` the call sites below never reach
this conversion, their outputs there are fixed separately). -/
def jsToString : JValue → String
  | .null => "null"
  | .undef => "undefined"
  | .bool b => if b then "true" else "false"
  | .num n => toString n
  | .str s => s

/-- JavaScript truthiness of a `JValue` (`value ? _ : _`). -/
def jsTruthy : JValue → Bool
  | .null => false
  | .undef => false
  | .bool b => b
  | .num n => n != 0
  | .str s => s != ""

/-- Containment of `pat` as a contiguous sublist of `l` (JavaScript
`indexOf(...) !== -1`; an empty pattern is found at position 0). -/
def containsSub (pat : List Char) : List Char → Bool
  | [] => pat.isEmpty
  | c :: rest => pat.isPrefixOf (c :: rest) || containsSub pat rest

/-- JavaScript `s.indexOf(sub) !== -1` / `s.includes(sub)`: substring
containment. -/
def jsIncludes (s sub : String) : Bool :=
  containsSub sub.data s.data

/-- Replacement of the first (leftmost) occurrence of `pat` in the list by
`rep`. -/
def replaceFirstList (pat rep : List Char) : List Char → List Char
  | [] => []
  | c :: rest =>
    if pat.isPrefixOf (c :: rest) then rep ++ (c :: rest).drop pat.length
    else c :: replaceFirstList pat rep rest

/-- Replacement of the first occurrence of the (non-empty) literal pattern
`pat` in `s` by `rep`; this is JavaScript `s.replace(regex, rep)` for a
regex without the `g` flag that matches exactly the literal text `pat`. -/
def jsReplaceFirst (s pat rep : String) : String :=
  String.mk (replaceFirstList pat.data rep.data s.data)

/-- JavaScript `s.startsWith(pre)`. -/
def jsStartsWith (s pre : String) : Bool :=
  pre.data.isPrefixOf s.data

/-- JavaScript `s.endsWith(suf)`. -/
def jsEndsWith (s suf : String) : Bool :=
  suf.data.isSuffixOf s.data

/-- JavaScript `s.toLowerCase()` (over the basic-latin range the headers
use). -/
def jsToLower (s : String) : String :=
  String.mk (s.data.map Char.toLower)

/-- JavaScript `s.split(sep)[0]` for a one-character separator: the prefix
before the first occurrence of `sep` (the whole string when absent). -/
def headBeforeChar (sep : Char) (s : String) : String :=
  String.mk (s.data.takeWhile fun c => c ≠ sep)

/-- JavaScript `s.padStart(target, "0")`. -/
def jsPadStartZero (s : String) (target : Nat) : String :=
  String.mk (List.replicate (target - s.length) '0') ++ s

/-! ## Data model (`src/types.ts`) -/

/-- `QueryColumnType` enum from `src/types.ts`. -/
inductive QueryColumnType where
  | Unknown
  | String
  | Number
  | Boolean
  | DateTime
  | ByteArray
deriving DecidableEq, Repr

/-- `QueryMessage` from `src/types.ts`. -/
structure QueryMessage where
  message : String
  code : Option Int := none
  level : Option Int := none
  state : Option Int := none
  lineNumber : Option Int := none
deriving DecidableEq, Repr

/-- `QueryColumn` from `src/types.ts`. -/
structure QueryColumn where
  name : String
  type : QueryColumnType
deriving DecidableEq, Repr

/-- `QueryResultSet` from `src/types.ts`. -/
structure QueryResultSet where
  columns : List QueryColumn
  rows : List (List JValue)
deriving DecidableEq, Repr

/-- `ExecuteQueryProgress` as used by `Api.executeQuery` and `QueryRunner`:
`identifier`, `isComplete`, `duration`, `messages` and the optional
`resultSets` (absent or `null` while running). -/
structure ExecuteQueryProgress where
  identifier : String
  isComplete : Bool
  duration : Nat := 0
  messages : List QueryMessage := []
  resultSets : Option (List QueryResultSet) := none
deriving DecidableEq, Repr

/-- `ConnectResponseBag` from `src/types.ts`. -/
structure ConnectResponseBag where
  databaseName : String := ""
  oSVersion : String := ""
  rockVersion : String := ""
  sqlEdition : String := ""
  sqlVersion : String := ""
deriving DecidableEq, Repr

/-- `azdata.DbCellValue` as produced by `QueryRunner.getRow`. -/
structure DbCellValue where
  displayValue : String
  isNull : Bool
  invariantCultureDisplayValue : String
deriving DecidableEq, Repr

/-! ## Value formatter (`src/utils.ts`) -/

/-- The local calendar/time fields of a parsed JavaScript `Date`
(`getFullYear`, `getMonth` (0-based), `getDate`, `getHours`,
`getMinutes`, `getSeconds`, `getMilliseconds`). -/
structure DateFields where
  year : Nat
  month : Nat
  day : Nat
  hours : Nat
  minutes : Nat
  seconds : Nat
  milliseconds : Nat
deriving DecidableEq, Repr

/-- The environment's date parsing, standing for
`new Date(Date.parse(string))` followed by reading the local calendar and
time fields; the timezone-dependent parse itself is outside the embedding
and passed in as a function. -/
def DateParse : Type := String → DateFields

/-- `getDateDisplayFormat` from `src/utils.ts`. -/
def getDateDisplayFormat (date : DateFields) : String :=
  let year := jsPadStartZero (toString date.year) 4
  let month := jsPadStartZero (toString (date.month + 1)) 2
  let day := jsPadStartZero (toString date.day) 2
  let hour := jsPadStartZero (toString date.hours) 2
  let minute := jsPadStartZero (toString date.minutes) 2
  let second := jsPadStartZero (toString date.seconds) 2
  let millis := jsPadStartZero (toString date.milliseconds) 3
  year ++ "-" ++ month ++ "-" ++ day ++ " " ++ hour ++ ":" ++ minute ++ ":" ++ second ++ "." ++ millis

/-- `getCellDisplayValue` from `src/utils.ts`, parameterised by the
environment's date parsing `dp`. -/
def getCellDisplayValue (dp : DateParse) (type : QueryColumnType) (value : JValue) : String :=
  if value = .undef ∨ value = .null then
    "null"
  else
    match type with
    | .String | .Number | .ByteArray | .Unknown => jsToString value
    | .Boolean => if jsTruthy value then "1" else "0"
    | .DateTime => getDateDisplayFormat (dp (jsToString value))

/-! ## Result store (`src/queryRunner.ts`) -/

/-- The distinct failure modes of `QueryRunner`'s result accessors:
the three `throw new Error(...)` sites, plus the JavaScript `TypeError`
raised when a property of `undefined` is read (indexing past the end of
an array and then dereferencing the element). -/
inductive RunnerError where
  | queryNotCompleted
  | resultSetNotFound
  | requestedRowsDoNotExist
  | typeError
deriving DecidableEq, Repr

namespace QueryRunner

/-- The cell produced by `QueryRunner.getRow` for a `null`/`undefined` raw
value. -/
def nullCell : DbCellValue :=
  { displayValue := "", isNull := true, invariantCultureDisplayValue := "" }

/-- The cell produced by `QueryRunner.getRow` for a defined raw value `c`
in column `col`. -/
def valueCell (dp : DateParse) (col : QueryColumn) (c : JValue) : DbCellValue :=
  let value := getCellDisplayValue dp col.type c
  { displayValue := value, isNull := false, invariantCultureDisplayValue := value }

/-- The body of `QueryRunner.getRow`'s `row.map((c, index) => ...)`
callback, threading the running index: a `null`/`undefined` cell maps to
`nullCell` without touching `columns`; a defined cell reads
`columns[index].type`, which in JavaScript throws a `TypeError` when
`index` is past the end of `columns`. -/
def getRowAux (dp : DateParse) (columns : List QueryColumn) :
    Nat → List JValue → Except RunnerError (List DbCellValue)
  | _, [] => .ok []
  | index, c :: rest =>
    if c = .null ∨ c = .undef then
      (getRowAux dp columns (index + 1) rest).map (nullCell :: ·)
    else
      match columns[index]? with
      | none => .error .typeError
      | some col => (getRowAux dp columns (index + 1) rest).map (valueCell dp col c :: ·)

/-- `QueryRunner.getRow` from `src/queryRunner.ts`. -/
def getRow (dp : DateParse) (columns : List QueryColumn) (row : List JValue) :
    Except RunnerError (List DbCellValue) :=
  getRowAux dp columns 0 row

/-- `resultSubset` part of `azdata.QueryExecuteSubsetResult`. -/
structure ResultSubset where
  rowCount : Nat
  rows : List (List DbCellValue)
deriving DecidableEq, Repr

/-- `azdata.QueryExecuteSubsetResult` as built by `QueryRunner.getResultSet`. -/
structure QueryExecuteSubsetResult where
  message : String
  resultSubset : ResultSubset
deriving DecidableEq, Repr

/-- `QueryRunner.getResultSet` from `src/queryRunner.ts`, over the runner's
`result` state (`none` while the query has not completed).  The source
guards with `resultSetIndex > this.result.resultSets.length` (strict), so
`resultSetIndex` equal to the length passes the guard, the subsequent
indexing yields `undefined`, and reading `.rows` off it raises a
`TypeError`. -/
def getResultSet (dp : DateParse) (result : Option ExecuteQueryProgress)
    (resultSetIndex startRow count : Nat) :
    Except RunnerError QueryExecuteSubsetResult :=
  match result with
  | none => .error .queryNotCompleted
  | some res =>
    match res.resultSets with
    | none => .error .resultSetNotFound
    | some sets =>
      if resultSetIndex > sets.length then
        .error .resultSetNotFound
      else
        match sets[resultSetIndex]? with
        | none => .error .typeError
        | some resultSet =>
          if startRow + count > resultSet.rows.length then
            .error .requestedRowsDoNotExist
          else
            ((resultSet.rows.drop startRow).take count
                |>.mapM (getRow dp resultSet.columns)).map
              fun rows => { message := "", resultSubset := { rowCount := count, rows } }

/-- One entry of `QueryRunner.getResultSetSummaries`'s output. -/
structure ResultSetSummary where
  id : Nat
  batchId : Nat
  rowCount : Nat
  columnNames : List String
  complete : Bool
deriving DecidableEq, Repr

/-- `QueryRunner.getResultSetSummaries` from `src/queryRunner.ts`. -/
def getResultSetSummaries (result : Option ExecuteQueryProgress) :
    Except RunnerError (List ResultSetSummary) :=
  match result with
  | none => .error .queryNotCompleted
  | some res =>
    match res.resultSets with
    | none => .ok []
    | some sets =>
      .ok <| sets.enum.map fun (i, resultSet) =>
        { id := i
          batchId := 0
          rowCount := resultSet.rows.length
          columnNames := resultSet.columns.map (·.name)
          complete := true }

end QueryRunner

/-! ## Session establishment (`Api.connect` in `src/api.ts`) -/

namespace Api

/-- The response headers of a `node-fetch` response, as the raw
multi-valued map returned by `headers.raw()`.  `headers.has` is
case-insensitive. -/
structure HttpHeaders where
  raw : List (String × List String)
deriving DecidableEq, Repr

/-- `response.headers.has("set-cookie")`. -/
def hasSetCookie (h : HttpHeaders) : Bool :=
  h.raw.any fun kv => jsToLower kv.1 == "set-cookie"

/-- `Object.keys(response.headers.raw()).find(k => k.toLowerCase() === "set-cookie")`
followed by `raw()[key].find(c => c.startsWith(".ROCK="))`. -/
def findRockCookie (h : HttpHeaders) : Option String :=
  (h.raw.find? fun kv => jsToLower kv.1 == "set-cookie").bind
    fun kv => kv.2.find? fun c => jsStartsWith c ".ROCK="

/-- The login response as `Api.connect` consumes it: a status code and
the response headers. -/
structure LoginResponse where
  status : Nat
  headers : HttpHeaders
deriving DecidableEq, Repr

/-- The negotiation (`Sql/Connect`) response as `Api.connect` consumes it:
a status code and, when 200, the parsed `ConnectResponseBag`. -/
structure ConnectResponse where
  status : Nat
  body : ConnectResponseBag
deriving DecidableEq, Repr

/-- The state of a constructed `Api` instance. -/
structure Session where
  baseUrl : String
  authCookie : String
  serverDetails : ConnectResponseBag
deriving DecidableEq, Repr

/-- The `Api` private constructor: hostnames already carrying a scheme are
used verbatim, otherwise `https://` is prefixed. -/
def mk (hostname authCookie : String) (connectBag : ConnectResponseBag) : Session :=
  { baseUrl := if jsIncludes hostname "://" then hostname else "https://" ++ hostname
    authCookie := authCookie
    serverDetails := connectBag }

/-- `Api.connect` from `src/api.ts`, over the two network responses it
consumes.  Each `throw` is modelled as `Except.error` carrying the thrown
message; an `Api` instance exists exactly when the function returns
`Except.ok`. -/
def connect (hostname : String) (login : LoginResponse) (conn : ConnectResponse) :
    Except String Session :=
  if login.status = 401 then
    .error "Invalid username or password."
  else if login.status ≠ 200 ∧ login.status ≠ 204 then
    .error "Unable to login, unknown error occurred."
  else if ¬hasSetCookie login.headers then
    .error "Invalid response received from the server."
  else
    match findRockCookie login.headers with
    | none => .error "Invalid response received from the server."
    | some cookie =>
      let authCookie := headBeforeChar ';' cookie
      if conn.status = 200 then
        .ok (mk hostname authCookie conn.body)
      else
        .error "Unable to negotiate connection with the server."

end Api

/-! ## Query execution protocol (`Api.executeQuery` in `src/api.ts`)

`executeQuery` is an asynchronous function interacting with the server:
its behaviour is embedded as a trace of observable events (message-callback
invocations, HTTP poll requests, the fire-and-forget cancel request, the
returned completion value, and thrown errors), as a function of the
responses the server supplies. -/

/-- The observable events of one `Api.executeQuery` execution. -/
inductive QueryEvent where
  /-- `messageCallback(msg)` was invoked. -/
  | messageCallback (m : QueryMessage)
  /-- A `GET .../Sql/Status/{identifier}` poll request was issued. -/
  | pollRequest (identifier : String)
  /-- A `DELETE .../Sql/Cancel/{identifier}` request was fired. -/
  | cancelRequest (identifier : String)
  /-- The promise resolved with the final progress. -/
  | completed (p : ExecuteQueryProgress)
  /-- The promise rejected with the given error message. -/
  | failed (e : String)
deriving DecidableEq, Repr

/-- One poll response: `Except.error e` stands for a non-200 status whose
body yields the error message `e` via `getDefaultError`, `Except.ok p` for
a 200 response parsing to progress `p`. -/
def PollResponse : Type := Except String ExecuteQueryProgress

/-- The `while (!progress.isComplete)` loop of `Api.executeQuery`: while
incomplete, every message of the current progress is delivered to the
message callback, then a poll request for the (fixed, initially assigned)
`identifier` is issued and its response consumed.  An exhausted response
list models a poll whose response never arrives (the `await` never
resumes, so no further events occur). -/
def pollLoop (identifier : String) :
    ExecuteQueryProgress → List PollResponse → List QueryEvent
  | progress, [] =>
    if progress.isComplete then
      [.completed progress]
    else
      progress.messages.map QueryEvent.messageCallback
        ++ [.pollRequest identifier]
  | progress, response :: rest =>
    if progress.isComplete then
      [.completed progress]
    else
      progress.messages.map QueryEvent.messageCallback
        ++ [.pollRequest identifier]
        ++ match response with
           | .error e => [.failed e]
           | .ok next => pollLoop identifier next rest

/-- `Api.executeQuery` without cancellation: the submit response is either
a non-200 failure (the function throws) or the initial progress, whose
`identifier` is captured for every subsequent poll. -/
def executeQueryEvents (submit : Except String ExecuteQueryProgress)
    (responses : List PollResponse) : List QueryEvent :=
  match submit with
  | .error e => [.failed e]
  | .ok progress => pollLoop progress.identifier progress responses

/-- The local state touched by `executeQuery`'s abort listener: the
`aborted` flag (which no other line of `executeQuery` ever reads) and the
`identifier` local, `none` until the submit response is parsed. -/
structure ExecState where
  aborted : Bool
  identifier : Option String
deriving DecidableEq, Repr

/-- The abort listener registered by `executeQuery`: it sets
`aborted := true` and fires the fire-and-forget cancel request only when
`identifier` has already been assigned. -/
def abortListener (st : ExecState) : ExecState × List QueryEvent :=
  ({ st with aborted := true },
   match st.identifier with
   | some identifier => [.cancelRequest identifier]
   | none => [])

/-- `Api.executeQuery` with the abort signal firing before the submit
response has assigned `identifier` (cancellation racing ahead of
submission).  The listener runs on the pre-submit state; the submit
response then assigns `identifier`, and the poll loop proceeds — no line
of the loop consults `st.aborted`, and none of the `fetch` calls is passed
the abort signal. -/
def executeQueryAbortedEarly (submit : Except String ExecuteQueryProgress)
    (responses : List PollResponse) : List QueryEvent :=
  let st0 : ExecState := { aborted := false, identifier := none }
  let (st1, abortEvents) := abortListener st0
  match submit with
  | .error e => abortEvents ++ [.failed e]
  | .ok progress =>
    let _st2 : ExecState := { st1 with identifier := some progress.identifier }
    abortEvents ++ pollLoop progress.identifier progress responses

/-! ## Delimited-text serializer (`src/serializers/exportToCsv.ts`) -/

namespace ExportToCsv

/-- The configuration of `ExportToCsv`, as resolved by its constructor
(defaults: `,` delimiter, platform newline separator — taken as `"\n"`
here, `"` quote, no headers, UTF-8). -/
structure Config where
  delimiter : String := ","
  lineSeperator : String := "\n"
  textIdentifier : String := "\""
  includeHeaders : Bool := false
  encoding : String := "utf-8"
deriving DecidableEq, Repr

/-- The mutable state of an `ExportToCsv` instance: whether `stream` holds
an open file handle, and the sequence of `stream.write` calls performed. -/
structure State where
  stream : Bool
  writes : List String
deriving DecidableEq, Repr

/-- `ExportToCsv.encodeValue` from `src/serializers/exportToCsv.ts`.
The source's `text.replace(new RegExp(`/\\${q}/g`), qq)` builds its regex
from the pattern string `/\q/g`: for the non-alphanumeric quote characters
this configuration takes (such as the default `"`), that regex matches the
literal four-character text `/q/g` — not the quote character — and, the
`g` being part of the pattern text rather than a flag, replaces only the
first occurrence. -/
def encodeValue (cfg : Config) (value : Option String) : String :=
  match value with
  | none => "NULL"
  | some value =>
    let text := jsReplaceFirst value ("/" ++ cfg.textIdentifier ++ "/g")
      (cfg.textIdentifier ++ cfg.textIdentifier)
    let needWrap := jsIncludes text cfg.delimiter
      || jsIncludes text "\r"
      || jsIncludes text "\n"
      || jsIncludes text cfg.textIdentifier
      || jsStartsWith text " "
      || jsEndsWith text " "
      || jsStartsWith text "\t"
      || jsEndsWith text "\t"
    if needWrap then
      cfg.textIdentifier ++ text ++ cfg.textIdentifier
    else
      text

/-- `ExportToCsv.open`: acquires the file handle and, when headers are
enabled, writes the header line built from the column names with the same
quoting rule. -/
def openSerializer (cfg : Config) (resultSet : QueryResultSet) (st : State) : State :=
  let st := { st with stream := true }
  if cfg.includeHeaders then
    let headers := resultSet.columns.map fun c => encodeValue cfg (some c.name)
    { st with writes := st.writes ++ [String.intercalate cfg.delimiter headers ++ cfg.lineSeperator] }
  else
    st

/-- `ExportToCsv.close`: releases the handle if one is held. -/
def closeSerializer (st : State) : State :=
  if st.stream then { st with stream := false } else st

/-- The body of `ExportToCsv.writeRow`'s `row.map((f, idx) => ...)`
callback, threading the running index: `null`/`undefined` cells encode as
the `NULL` literal without touching `columns`; a defined cell reads
`columns[idx].type`, which in JavaScript throws a `TypeError` when `idx`
is past the end of `columns`. -/
def writeRowAux (dp : DateParse) (cfg : Config) (columns : List QueryColumn) :
    Nat → List JValue → Except RunnerError (List String)
  | _, [] => .ok []
  | idx, f :: rest =>
    if f = .null ∨ f = .undef then
      (writeRowAux dp cfg columns (idx + 1) rest).map (encodeValue cfg none :: ·)
    else
      match columns[idx]? with
      | none => .error .typeError
      | some col =>
        (writeRowAux dp cfg columns (idx + 1) rest).map
          (encodeValue cfg (some (getCellDisplayValue dp col.type f)) :: ·)

/-- `ExportToCsv.writeRow` from `src/serializers/exportToCsv.ts`: when no
file handle is held the call returns at once; otherwise each cell is
encoded and the joined line is written. -/
def writeRow (dp : DateParse) (cfg : Config) (st : State)
    (columns : List QueryColumn) (row : List JValue) : Except RunnerError State :=
  if !st.stream then
    .ok st
  else
    (writeRowAux dp cfg columns 0 row).map fun fields =>
      { st with writes := st.writes ++ [String.intercalate cfg.delimiter fields ++ cfg.lineSeperator] }

end ExportToCsv

/-! ## Structured-record serializer (`src/serializers/exportToJson.ts`) -/

namespace ExportToJson

/-- The mutable state of an `ExportToJson` instance: the captured column
names, whether `stream` holds an open file handle, the accumulated
`dataObject` records (each an insertion-ordered JavaScript object), and
the sequence of `stream.write` calls performed. -/
structure State where
  columnNames : List String
  stream : Bool
  dataObject : List (List (String × JValue))
  writes : List String
deriving DecidableEq, Repr

/-- The initial state of a freshly constructed `ExportToJson`. -/
def initial : State :=
  { columnNames := [], stream := false, dataObject := [], writes := [] }

/-- JavaScript object property assignment `obj[k] = v`: an existing key is
updated in place, a new key is appended in insertion order. -/
def objSet (obj : List (String × JValue)) (k : String) (v : JValue) :
    List (String × JValue) :=
  if obj.any (·.1 == k) then
    obj.map fun kv => if kv.1 == k then (k, v) else kv
  else
    obj ++ [(k, v)]

/-- One hex digit. -/
def hexDigit (n : Nat) : Char :=
  if n < 10 then Char.ofNat (48 + n) else Char.ofNat (87 + n)

/-- `JSON.stringify` escaping of one character inside a string literal. -/
def jsonEscapeChar (c : Char) : String :=
  if c = '"' then "\\\""
  else if c = '\\' then "\\\\"
  else if c = '\n' then "\\n"
  else if c = '\r' then "\\r"
  else if c = '\t' then "\\t"
  else if c.toNat = 8 then "\\b"
  else if c.toNat = 12 then "\\f"
  else if c.toNat < 32 then
    "\\u00" ++ String.mk [hexDigit (c.toNat / 16), hexDigit (c.toNat % 16)]
  else
    String.singleton c

/-- `JSON.stringify` rendering of a string. -/
def jsonEscapeString (s : String) : String :=
  "\"" ++ String.join (s.toList.map jsonEscapeChar) ++ "\""

/-- `JSON.stringify` rendering of an atomic value; `none` for `undefined`,
whose object properties `JSON.stringify` omits. -/
def jsonStringifyAtom : JValue → Option String
  | .null => some "null"
  | .undef => none
  | .bool b => some (if b then "true" else "false")
  | .num n => some (toString n)
  | .str s => some (jsonEscapeString s)

/-- `2 * depth` spaces of indentation. -/
def jsonIndent (depth : Nat) : String :=
  String.mk (List.replicate (2 * depth) ' ')

/-- `JSON.stringify(record, undefined, 2)` of one flat record nested at
`depth`. -/
def jsonStringifyRecord (depth : Nat) (obj : List (String × JValue)) : String :=
  let entries := obj.filterMap fun kv =>
    (jsonStringifyAtom kv.2).map fun s => jsonEscapeString kv.1 ++ ": " ++ s
  if entries.isEmpty then
    "\x7b\x7d"
  else
    "\x7b\n" ++ String.intercalate ",\n" (entries.map (jsonIndent (depth + 1) ++ ·))
      ++ "\n" ++ jsonIndent depth ++ "\x7d"

/-- `JSON.stringify(this.dataObject, undefined, 2)`: the whole accumulated
collection as one 2-space-indented document. -/
def jsonStringifyRecords (records : List (List (String × JValue))) : String :=
  if records.isEmpty then
    "[]"
  else
    "[\n"
      ++ String.intercalate ",\n"
        (records.map fun r => jsonIndent 1 ++ jsonStringifyRecord 1 r)
      ++ "\n]"

/-- `ExportToJson.open`: captures the column names and acquires the file
handle. -/
def openSerializer (resultSet : QueryResultSet) (st : State) : State :=
  { st with columnNames := resultSet.columns.map (·.name), stream := true }

/-- The record built by one `ExportToJson.writeRow` call: the loop runs
`i` over `0 ≤ i < min (row.length, columnNames.length)`, storing `null`
for `null`/`undefined` cells and the raw value otherwise. -/
def buildRecord (columnNames : List String) (row : List JValue) :
    List (String × JValue) :=
  (columnNames.zip row).foldl
    (fun obj kv =>
      objSet obj kv.1 (if kv.2 = .null ∨ kv.2 = .undef then .null else kv.2))
    []

/-- `ExportToJson.writeRow` from `src/serializers/exportToJson.ts`:
appends one record to `dataObject` and performs no write. -/
def writeRow (st : State) (_columns : List QueryColumn) (row : List JValue) : State :=
  { st with dataObject := st.dataObject ++ [buildRecord st.columnNames row] }

/-- `ExportToJson.close`: when a handle is held, writes the entire
accumulated collection as a single stringified document in one write and
releases the handle. -/
def closeSerializer (st : State) : State :=
  if st.stream then
    { st with
      writes := st.writes ++ [jsonStringifyRecords st.dataObject]
      stream := false }
  else
    st

end ExportToJson

/-! ## Decimal digit strings

Infrastructure connecting `Nat.repr` (the `toString` used by
`getDateDisplayFormat`) with an explicit digit-list view, used to verify
the canonical date format. -/

/-- The decimal digit characters of `n`, most significant first. -/
def digitChars (n : Nat) : List Char :=
  if n < 10 then [Nat.digitChar n]
  else digitChars (n / 10) ++ [Nat.digitChar (n % 10)]
termination_by n
decreasing_by
  exact Nat.div_lt_self (by omega) (by omega)

/-- One step of decimal decoding. -/
def decodeStep (a : Nat) (c : Char) : Nat := 10 * a + (c.toNat - 48)

/-- Decimal decoding of a digit-character list. -/
def decodeDigits (l : List Char) : Nat := l.foldl decodeStep 0

/-- Splitting a character list at every occurrence of `sep` (the separator
occurrences are dropped; `n` separators yield `n + 1` chunks). -/
def splitOnChar (sep : Char) : List Char → List (List Char)
  | [] => [[]]
  | c :: rest =>
    if c = sep then
      [] :: splitOnChar sep rest
    else
      match splitOnChar sep rest with
      | [] => [[c]]
      | l :: ls => (c :: l) :: ls

/-- Decoding of one all-digits, non-empty field. -/
def decodeField (l : List Char) : Option Nat :=
  if l ≠ [] ∧ l.all Char.isDigit then some (decodeDigits l) else none

/-- Reader for the canonical `YYYY-MM-DD HH:MM:SS.mmm` display format:
splits the date and time parts at the separators, requires each field to
be a non-empty digit string, and recovers the local calendar/time fields
(the month field is 1-based in the rendering, 0-based in `DateFields`). -/
def parseCanonicalDateString (s : String) : Option DateFields :=
  match splitOnChar ' ' s.data with
  | [datePart, timePart] =>
    match splitOnChar '-' datePart, splitOnChar ':' timePart with
    | [y, mo, d], [hh, mi, rest] =>
      match splitOnChar '.' rest with
      | [ss, ms] =>
        match decodeField y, decodeField mo, decodeField d, decodeField hh,
            decodeField mi, decodeField ss, decodeField ms with
        | some yv, some mov, some dv, some hv, some miv, some sv, some msv =>
          if mov = 0 then none
          else some ⟨yv, mov - 1, dv, hv, miv, sv, msv⟩
        | _, _, _, _, _, _, _ => none
      | _ => none
    | _, _ => none
  | _ => none

/-- The character list a zero-padded decimal field renders to. -/
def paddedDigits (n k : Nat) : List Char :=
  List.replicate (k - (Nat.repr n).length) '0' ++ digitChars n

/-! ## Trace views of the polling protocol -/

/-- The sequence of progress values the poll loop processes while they
report `isComplete = false` (each of these triggers one
message-delivery-then-poll cycle), in receipt order. -/
def incompleteStages : ExecuteQueryProgress → List PollResponse → List ExecuteQueryProgress
  | p, [] => if p.isComplete then [] else [p]
  | p, response :: rest =>
    if p.isComplete then []
    else
      p :: match response with
           | .ok next => incompleteStages next rest
           | .error _ => []

/-- The terminal events of the poll loop: the resolved completion, the
thrown poll error, or nothing when the final poll's response never
arrives. -/
def finalEvents : ExecuteQueryProgress → List PollResponse → List QueryEvent
  | p, [] => if p.isComplete then [.completed p] else []
  | p, response :: rest =>
    if p.isComplete then [.completed p]
    else
      match response with
      | .error e => [.failed e]
      | .ok next => finalEvents next rest

/-- The message delivered by a trace event, if it is a message-callback
invocation. -/
def deliveredMessage : QueryEvent → Option QueryMessage
  | .messageCallback m => some m
  | _ => none

/-! ## Concrete fixtures -/

/-- A trivial date-parse environment used where a concrete `DateParse` is
needed. -/
def dpZero : DateParse := fun _ => ⟨0, 0, 0, 0, 0, 0, 0⟩

/-- A server message used in concrete executions. -/
def sampleMessage : QueryMessage := { message := "running" }

/-- An initial (incomplete) submit progress carrying one message. -/
def sampleRunning : ExecuteQueryProgress :=
  { identifier := "q1", isComplete := false, messages := [sampleMessage] }

/-- A completed progress with one single-column, single-row result set. -/
def sampleDone : ExecuteQueryProgress :=
  { identifier := "q1"
    isComplete := true
    duration := 5
    messages := [sampleMessage]
    resultSets := some [({ columns := [{ name := "c", type := .Number }]
                           rows := [[.num 1]] } : QueryResultSet)] }

/-- A completed query result holding exactly one result set with two rows. -/
def sampleResult : ExecuteQueryProgress :=
  { identifier := "q2"
    isComplete := true
    resultSets := some [({ columns := [{ name := "n", type := .Number },
                                       { name := "s", type := .String }]
                           rows := [[.num 7, .str "a"], [.null, .str "b"]] } : QueryResultSet)] }

theorem digitChars_ne_nil (n : Nat) : digitChars n ≠ [] := by
  unfold digitChars
  split
  · simp
  · simp

theorem toDigitsCore_eq_digitChars :
    ∀ (fuel n : Nat) (acc : List Char), n < fuel →
      Nat.toDigitsCore 10 fuel n acc = digitChars n ++ acc := by
  intro fuel
  induction fuel with
  | zero => omega
  | succ f ih =>
    intro n acc h
    by_cases h10 : n < 10
    · have hdiv : n / 10 = 0 := Nat.div_eq_of_lt h10
      have hmod : n % 10 = n := Nat.mod_eq_of_lt h10
      simp [Nat.toDigitsCore, hdiv, hmod, digitChars, h10]
    · have hdiv : n / 10 ≠ 0 := by
        intro hc
        exact h10 (by omega)
      have hlt : n / 10 < f := by
        have h1 : n / 10 < n := Nat.div_lt_self (by omega) (by omega)
        omega
      rw [show Nat.toDigitsCore 10 (f + 1) n acc
            = Nat.toDigitsCore 10 f (n / 10) (Nat.digitChar (n % 10) :: acc) by
          simp [Nat.toDigitsCore, hdiv]]
      rw [ih (n / 10) (Nat.digitChar (n % 10) :: acc) hlt]
      conv_rhs => rw [digitChars]
      simp [h10]

/-- `Nat.repr` is the digit-character list. -/
theorem repr_data_eq_digitChars (n : Nat) :
    (Nat.repr n).data = digitChars n := by
  have h := toDigitsCore_eq_digitChars (n + 1) n [] (by omega)
  simp only [Nat.repr, Nat.toDigits, List.asString]
  simpa using h

theorem digitChar_isDigit_of_lt {d : Nat} (h : d < 10) :
    (Nat.digitChar d).isDigit = true := by
  revert h
  revert d
  decide

theorem digitChar_toNat_of_lt {d : Nat} (h : d < 10) :
    (Nat.digitChar d).toNat = 48 + d := by
  revert h
  revert d
  decide

theorem digitChars_all_digits (n : Nat) :
    ∀ c ∈ digitChars n, c.isDigit = true := by
  induction n using Nat.strong_induction_on with
  | _ n ih =>
    intro c hc
    rw [digitChars] at hc
    by_cases h10 : n < 10
    · simp only [if_pos h10, List.mem_singleton] at hc
      subst hc
      exact digitChar_isDigit_of_lt h10
    · simp only [if_neg h10, List.mem_append, List.mem_singleton] at hc
      rcases hc with hc | hc
      · exact ih (n / 10) (Nat.div_lt_self (by omega) (by omega)) c hc
      · subst hc
        exact digitChar_isDigit_of_lt (Nat.mod_lt n (by omega))

theorem foldl_decodeStep_digitChars (n : Nat) :
    ∀ a : Nat, (digitChars n).foldl decodeStep a
      = a * 10 ^ (digitChars n).length + n := by
  induction n using Nat.strong_induction_on with
  | _ n ih =>
    intro a
    rw [digitChars]
    by_cases h10 : n < 10
    · simp [if_pos h10, decodeStep, digitChar_toNat_of_lt h10]
      omega
    · have hmod : n % 10 < 10 := Nat.mod_lt n (by omega)
      simp only [if_neg h10, List.foldl_append, List.foldl_cons, List.foldl_nil,
        List.length_append, List.length_singleton]
      rw [ih (n / 10) (Nat.div_lt_self (by omega) (by omega)) a]
      simp only [decodeStep, digitChar_toNat_of_lt hmod]
      have hdm := Nat.div_add_mod n 10
      have : a * 10 ^ ((digitChars (n / 10)).length + 1)
          = a * 10 ^ (digitChars (n / 10)).length * 10 := by
        ring
      omega

theorem foldl_decodeStep_replicate_zero (k : Nat) :
    (List.replicate k '0').foldl decodeStep 0 = 0 := by
  induction k with
  | zero => simp
  | succ m ih =>
    simp only [List.replicate_succ, List.foldl_cons]
    have h0 : decodeStep 0 '0' = 0 := by decide
    rw [h0, ih]

/-- Decoding a zero-padded digit rendering of `n` recovers `n`. -/
theorem decodeDigits_pad (k n : Nat) :
    decodeDigits (List.replicate k '0' ++ digitChars n) = n := by
  simp only [decodeDigits, List.foldl_append]
  rw [foldl_decodeStep_replicate_zero, foldl_decodeStep_digitChars]
  simp

/-! ## Splitting on a separator character -/

theorem splitOnChar_ne_nil (sep : Char) (l : List Char) :
    splitOnChar sep l ≠ [] := by
  cases l with
  | nil => simp [splitOnChar]
  | cons c rest =>
    rw [splitOnChar]
    split
    · simp
    · split
      · simp
      · simp

theorem splitOnChar_of_not_mem {sep : Char} {l : List Char} (h : sep ∉ l) :
    splitOnChar sep l = [l] := by
  induction l with
  | nil => rfl
  | cons c rest ih =>
    rw [splitOnChar]
    have hc : ¬c = sep := by
      intro hc
      exact h (hc ▸ List.mem_cons_self c rest)
    rw [if_neg hc, ih (fun hm => h (List.mem_cons_of_mem c hm))]

theorem splitOnChar_append_sep {sep : Char} {a : List Char} (b : List Char)
    (h : sep ∉ a) :
    splitOnChar sep (a ++ sep :: b) = a :: splitOnChar sep b := by
  induction a with
  | nil => simp [splitOnChar]
  | cons c rest ih =>
    have hc : ¬c = sep := by
      intro hc
      exact h (hc ▸ List.mem_cons_self c rest)
    rw [List.cons_append, splitOnChar, if_neg hc,
      ih (fun hm => h (List.mem_cons_of_mem c hm))]

/-! ## The canonical date display format, read back -/

theorem jsPadStartZero_toString_data (n k : Nat) :
    (jsPadStartZero (toString n) k).data = paddedDigits n k := by
  have hrepr : (toString n : String) = Nat.repr n := rfl
  simp [jsPadStartZero, paddedDigits, hrepr, repr_data_eq_digitChars]

theorem paddedDigits_all_digits (n k : Nat) :
    ∀ c ∈ paddedDigits n k, c.isDigit = true := by
  intro c hc
  rcases List.mem_append.mp hc with hc | hc
  · rw [List.eq_of_mem_replicate hc]
    decide
  · exact digitChars_all_digits n c hc

theorem not_mem_paddedDigits {sep : Char} (h : sep.isDigit = false) (n k : Nat) :
    sep ∉ paddedDigits n k := by
  intro hm
  rw [paddedDigits_all_digits n k sep hm] at h
  cases h

theorem decodeField_paddedDigits (n k : Nat) :
    decodeField (paddedDigits n k) = some n := by
  have hne : paddedDigits n k ≠ [] := by
    simp [paddedDigits, digitChars_ne_nil n]
  have hall : (paddedDigits n k).all Char.isDigit = true :=
    List.all_eq_true.mpr (paddedDigits_all_digits n k)
  rw [decodeField, if_pos ⟨hne, hall⟩, paddedDigits, decodeDigits_pad]

/-- The character-level decomposition of the rendered date. -/
theorem getDateDisplayFormat_data (f : DateFields) :
    (getDateDisplayFormat f).data =
      (paddedDigits f.year 4 ++ '-' :: (paddedDigits (f.month + 1) 2
          ++ '-' :: paddedDigits f.day 2))
        ++ ' ' :: (paddedDigits f.hours 2 ++ ':' :: (paddedDigits f.minutes 2
          ++ ':' :: (paddedDigits f.seconds 2
            ++ '.' :: paddedDigits f.milliseconds 3))) := by
  show (jsPadStartZero (toString f.year) 4 ++ "-" ++ jsPadStartZero (toString (f.month + 1)) 2
      ++ "-" ++ jsPadStartZero (toString f.day) 2 ++ " " ++ jsPadStartZero (toString f.hours) 2
      ++ ":" ++ jsPadStartZero (toString f.minutes) 2 ++ ":"
      ++ jsPadStartZero (toString f.seconds) 2 ++ "."
      ++ jsPadStartZero (toString f.milliseconds) 3).data = _
  simp [String.data_append, jsPadStartZero_toString_data]

/-- Reading the rendered canonical format back recovers every local field,
including the milliseconds. -/
theorem parseCanonical_getDateDisplayFormat (f : DateFields) :
    parseCanonicalDateString (getDateDisplayFormat f) = some f := by
  have hdash : ∀ n k : Nat, ('-' : Char) ∉ paddedDigits n k :=
    fun n k => not_mem_paddedDigits (by decide) n k
  have hsp : ∀ n k : Nat, (' ' : Char) ∉ paddedDigits n k :=
    fun n k => not_mem_paddedDigits (by decide) n k
  have hcolon : ∀ n k : Nat, (':' : Char) ∉ paddedDigits n k :=
    fun n k => not_mem_paddedDigits (by decide) n k
  have hdot : ∀ n k : Nat, ('.' : Char) ∉ paddedDigits n k :=
    fun n k => not_mem_paddedDigits (by decide) n k
  have hspDate : (' ' : Char) ∉ paddedDigits f.year 4
      ++ '-' :: (paddedDigits (f.month + 1) 2 ++ '-' :: paddedDigits f.day 2) := by
    simp only [List.mem_append, List.mem_cons]
    push_neg
    refine ⟨hsp _ _, by decide, hsp _ _, by decide, hsp _ _⟩
  have hspTime : (' ' : Char) ∉ paddedDigits f.hours 2
      ++ ':' :: (paddedDigits f.minutes 2 ++ ':' :: (paddedDigits f.seconds 2
        ++ '.' :: paddedDigits f.milliseconds 3)) := by
    simp only [List.mem_append, List.mem_cons]
    push_neg
    refine ⟨hsp _ _, by decide, hsp _ _, by decide, hsp _ _, by decide, hsp _ _⟩
  have hcolonTail : (':' : Char) ∉ paddedDigits f.seconds 2
      ++ '.' :: paddedDigits f.milliseconds 3 := by
    simp only [List.mem_append, List.mem_cons]
    push_neg
    refine ⟨hcolon _ _, by decide, hcolon _ _⟩
  rw [parseCanonicalDateString, getDateDisplayFormat_data f]
  simp only [splitOnChar_append_sep _ hspDate, splitOnChar_of_not_mem hspTime,
    splitOnChar_append_sep _ (hdash f.year 4),
    splitOnChar_append_sep _ (hdash (f.month + 1) 2),
    splitOnChar_of_not_mem (hdash f.day 2),
    splitOnChar_append_sep _ (hcolon f.hours 2),
    splitOnChar_append_sep _ (hcolon f.minutes 2),
    splitOnChar_of_not_mem hcolonTail,
    splitOnChar_append_sep _ (hdot f.seconds 2),
    splitOnChar_of_not_mem (hdot f.milliseconds 3),
    decodeField_paddedDigits]
  rw [if_neg (by omega)]
  simp

/-! ## Poll-loop trace lemmas -/

theorem pollLoop_complete {ident : String} {p : ExecuteQueryProgress}
    (rs : List PollResponse) (h : p.isComplete = true) :
    pollLoop ident p rs = [QueryEvent.completed p] := by
  cases rs <;> simp [pollLoop, h]

theorem pollLoop_characterization (ident : String) :
    ∀ (rs : List PollResponse) (p : ExecuteQueryProgress),
      pollLoop ident p rs
        = (incompleteStages p rs).flatMap
            (fun q => q.messages.map QueryEvent.messageCallback
              ++ [QueryEvent.pollRequest ident])
          ++ finalEvents p rs := by
  intro rs
  induction rs with
  | nil =>
    intro p
    by_cases hp : p.isComplete <;> simp [pollLoop, incompleteStages, finalEvents, hp]
  | cons r rest ih =>
    intro p
    by_cases hp : p.isComplete
    · simp [pollLoop, incompleteStages, finalEvents, hp]
    · cases r with
      | error e => simp [pollLoop, incompleteStages, finalEvents, hp]
      | ok next =>
        simp [pollLoop, incompleteStages, finalEvents, hp, ih next,
          List.append_assoc]

theorem incompleteStages_incomplete :
    ∀ (rs : List PollResponse) (p q : ExecuteQueryProgress),
      q ∈ incompleteStages p rs → q.isComplete = false := by
  intro rs
  induction rs with
  | nil =>
    intro p q hq
    by_cases hp : p.isComplete
    · simp [incompleteStages, hp] at hq
    · simp [incompleteStages, hp] at hq
      simp [hq, hp]
  | cons r rest ih =>
    intro p q hq
    by_cases hp : p.isComplete
    · simp [incompleteStages, hp] at hq
    · simp only [incompleteStages, if_neg hp, List.mem_cons] at hq
      rcases hq with rfl | hq
      · simpa using hp
      · cases r with
        | error e => simp at hq
        | ok next => exact ih next q hq

theorem finalEvents_cases :
    ∀ (rs : List PollResponse) (p : ExecuteQueryProgress),
      finalEvents p rs = []
      ∨ (∃ e, finalEvents p rs = [QueryEvent.failed e])
      ∨ (∃ q, q.isComplete = true ∧ finalEvents p rs = [QueryEvent.completed q]) := by
  intro rs
  induction rs with
  | nil =>
    intro p
    by_cases hp : p.isComplete
    · exact Or.inr (Or.inr ⟨p, hp, by simp [finalEvents, hp]⟩)
    · simp [finalEvents, hp]
  | cons r rest ih =>
    intro p
    by_cases hp : p.isComplete
    · exact Or.inr (Or.inr ⟨p, hp, by simp [finalEvents, hp]⟩)
    · cases r with
      | error e => exact Or.inr (Or.inl ⟨e, by simp [finalEvents, hp]⟩)
      | ok next =>
        simpa [finalEvents, hp] using ih next

theorem mem_stage_events {ident : String} {l : List ExecuteQueryProgress}
    {ev : QueryEvent}
    (h : ev ∈ l.flatMap (fun q => q.messages.map QueryEvent.messageCallback
        ++ [QueryEvent.pollRequest ident])) :
    (∃ m, ev = QueryEvent.messageCallback m) ∨ ev = QueryEvent.pollRequest ident := by
  rcases List.mem_flatMap.mp h with ⟨q, _, hev⟩
  rcases List.mem_append.mp hev with hev | hev
  · rcases List.mem_map.mp hev with ⟨m, _, rfl⟩
    exact Or.inl ⟨m, rfl⟩
  · simp only [List.mem_singleton] at hev
    exact Or.inr hev

theorem completed_mem_pollLoop {ident : String} {p : ExecuteQueryProgress}
    {rs : List PollResponse} {q : ExecuteQueryProgress}
    (h : QueryEvent.completed q ∈ pollLoop ident p rs) : q.isComplete = true := by
  rw [pollLoop_characterization] at h
  rcases List.mem_append.mp h with h | h
  · rcases mem_stage_events h with ⟨m, hm⟩ | hm <;> simp at hm
  · rcases finalEvents_cases rs p with hf | ⟨e, hf⟩ | ⟨q0, hq0, hf⟩ <;> rw [hf] at h
    · simp at h
    · simp at h
    · simp only [List.mem_singleton, QueryEvent.completed.injEq] at h
      exact h ▸ hq0

theorem append_singleton_eq_append_cons {α : Type} {x : α} :
    ∀ {P l1 l2 : List α}, x ∉ P → P ++ [x] = l1 ++ x :: l2 → l2 = [] := by
  intro P
  induction P with
  | nil =>
    intro l1 l2 _ h
    cases l1 with
    | nil => simpa using h
    | cons a l1 =>
      have hlen := congrArg List.length h
      simp only [List.length_append, List.length_cons, List.length_nil,
        List.length_singleton] at hlen
      omega
  | cons p P ih =>
    intro l1 l2 hx h
    cases l1 with
    | nil =>
      simp only [List.cons_append, List.nil_append] at h
      have hpx : p = x := (List.cons.injEq p (P ++ [x]) x l2).mp h |>.1
      exact absurd (hpx ▸ List.mem_cons_self p P) hx
    | cons a l1 =>
      simp only [List.cons_append] at h
      have htail := (List.cons.injEq p (P ++ [x]) a (l1 ++ x :: l2)).mp h |>.2
      exact ih (fun hm => hx (List.mem_cons_of_mem p hm)) htail

theorem nothing_after_completed_pollLoop {ident : String} {p : ExecuteQueryProgress}
    {rs : List PollResponse} {l1 l2 : List QueryEvent} {q : ExecuteQueryProgress}
    (h : pollLoop ident p rs = l1 ++ QueryEvent.completed q :: l2) : l2 = [] := by
  have hmem : QueryEvent.completed q ∈ pollLoop ident p rs := by
    rw [h]
    simp
  rw [pollLoop_characterization] at h hmem
  have hnotPrefix : QueryEvent.completed q
      ∉ (incompleteStages p rs).flatMap
        (fun s => s.messages.map QueryEvent.messageCallback
          ++ [QueryEvent.pollRequest ident]) := by
    intro hc
    rcases mem_stage_events hc with ⟨m, hm⟩ | hm <;> simp at hm
  rcases finalEvents_cases rs p with hf | ⟨e, hf⟩ | ⟨q0, _, hf⟩ <;> rw [hf] at h hmem
  · simp only [List.append_nil] at hmem
    exact absurd hmem hnotPrefix
  · rcases List.mem_append.mp hmem with hc | hc
    · exact absurd hc hnotPrefix
    · simp at hc
  · have hq : q = q0 := by
      rcases List.mem_append.mp hmem with hc | hc
      · exact absurd hc hnotPrefix
      · simpa using hc
    subst hq
    exact append_singleton_eq_append_cons hnotPrefix h

/-- C1: in every execution of `Api.executeQuery`, the trace decomposes as
one message-delivery-then-poll cycle per received progress with
`isComplete = false`, followed by the terminal event; hence a status poll
is issued only while the most recent progress is incomplete, every message
of that progress is delivered before the next poll, a progress with
`isComplete = true` is returned immediately with no further poll, nothing
happens after the completion resolves, and the resolved value always has
`isComplete = true` (so a completion with populated `resultSets` is never
delivered while `isComplete` is false). -/
theorem executeQuery_poll_protocol (submit : Except String ExecuteQueryProgress)
    (responses : List PollResponse) :
    (∀ q, QueryEvent.completed q ∈ executeQueryEvents submit responses →
      q.isComplete = true)
  ∧ (∀ l1 q l2,
      executeQueryEvents submit responses = l1 ++ QueryEvent.completed q :: l2 →
      l2 = [])
  ∧ (∀ p, submit = .ok p → p.isComplete = true →
      executeQueryEvents submit responses = [QueryEvent.completed p])
  ∧ (∀ p, submit = .ok p →
      executeQueryEvents submit responses
        = (incompleteStages p responses).flatMap
            (fun q => q.messages.map QueryEvent.messageCallback
              ++ [QueryEvent.pollRequest p.identifier])
          ++ finalEvents p responses
      ∧ ∀ q ∈ incompleteStages p responses, q.isComplete = false) := by
  refine ⟨?_, ?_, ?_, ?_⟩
  · intro q hq
    cases submit with
    | error e =>
      simp [executeQueryEvents] at hq
    | ok p =>
      exact completed_mem_pollLoop hq
  · intro l1 q l2 h
    cases submit with
    | error e =>
      rw [executeQueryEvents] at h
      have hmem : QueryEvent.completed q ∈ [QueryEvent.failed e] := by
        rw [h]
        simp
      simp at hmem
    | ok p =>
      exact nothing_after_completed_pollLoop h
  · intro p hp hcomplete
    subst hp
    rw [executeQueryEvents]
    exact pollLoop_complete responses hcomplete
  · intro p hp
    subst hp
    exact ⟨pollLoop_characterization p.identifier responses p,
      fun q hq => incompleteStages_incomplete responses p q hq⟩

/-- C1 witness: a concrete two-step execution (one incomplete progress,
then completion). -/
theorem executeQuery_poll_protocol_witness :
    executeQueryEvents (.ok sampleRunning) [.ok sampleDone]
      = [QueryEvent.messageCallback sampleMessage,
         QueryEvent.pollRequest "q1",
         QueryEvent.completed sampleDone]
  ∧ sampleDone.isComplete = true
  ∧ executeQueryEvents (.ok sampleDone) [] = [QueryEvent.completed sampleDone] := by
  have h := executeQuery_poll_protocol (.ok sampleRunning) [.ok sampleDone]
  have h3 := (executeQuery_poll_protocol (.ok sampleDone) []).2.2.1 sampleDone rfl
    (by decide)
  refine ⟨?_, by decide, h3⟩
  have h4 := h.2.2.2 sampleRunning rfl
  rw [h4.1]
  decide

theorem filterMap_deliveredMessage_stages (ident : String) :
    ∀ l : List ExecuteQueryProgress,
      (l.flatMap (fun q => q.messages.map QueryEvent.messageCallback
          ++ [QueryEvent.pollRequest ident])).filterMap deliveredMessage
        = l.flatMap (fun q => q.messages) := by
  intro l
  induction l with
  | nil => simp
  | cons q rest ih =>
    have hcomp : (deliveredMessage ∘ QueryEvent.messageCallback) = some := by
      funext m
      rfl
    simp only [List.flatMap_cons, List.filterMap_append, ih, List.filterMap_map,
      hcomp, List.filterMap_some]
    simp [deliveredMessage]

theorem filterMap_deliveredMessage_final (rs : List PollResponse)
    (p : ExecuteQueryProgress) :
    (finalEvents p rs).filterMap deliveredMessage = [] := by
  rcases finalEvents_cases rs p with hf | ⟨e, hf⟩ | ⟨q, _, hf⟩ <;>
    simp [hf, deliveredMessage]

/-- C9: the message callback is invoked exactly with the messages of the
progresses received with `isComplete = false`, in order; the final
(complete) progress contributes no callback invocation — its messages are
only present in the resolved completion value. -/
theorem executeQuery_messages_only_while_incomplete
    (submit : Except String ExecuteQueryProgress) (responses : List PollResponse) :
    (∀ p, submit = .ok p →
      (executeQueryEvents submit responses).filterMap deliveredMessage
        = (incompleteStages p responses).flatMap (fun q => q.messages)
      ∧ ∀ q ∈ incompleteStages p responses, q.isComplete = false)
  ∧ (∀ e, submit = .error e →
      (executeQueryEvents submit responses).filterMap deliveredMessage = []) := by
  constructor
  · intro p hp
    subst hp
    constructor
    · rw [executeQueryEvents, pollLoop_characterization, List.filterMap_append,
        filterMap_deliveredMessage_stages, filterMap_deliveredMessage_final]
      simp
    · exact fun q hq => incompleteStages_incomplete responses p q hq
  · intro e he
    subst he
    simp [executeQueryEvents, deliveredMessage]

/-- C9 witness: in the concrete two-step execution the callback delivers
exactly the one message of the incomplete stage, and the final progress's
messages are not delivered again. -/
theorem executeQuery_messages_only_while_incomplete_witness :
    (executeQueryEvents (.ok sampleRunning) [.ok sampleDone]).filterMap
        deliveredMessage = [sampleMessage]
  ∧ incompleteStages sampleRunning [.ok sampleDone] = [sampleRunning] := by
  have h := (executeQuery_messages_only_while_incomplete
    (.ok sampleRunning) [.ok sampleDone]).1 sampleRunning rfl
  refine ⟨?_, by decide⟩
  rw [h.1]
  decide

/-- C2: evaluating `Api.executeQuery` with the abort signal fired before
the submit response assigns `identifier` (the spec's
cancel-before-identifier scenario): the listener, seeing no identifier,
sends no cancel request — and since the `aborted` flag is never read and
the signal is not attached to any `fetch`, the poll loop then runs to
completion, still invoking the message callback and resolving with the
results. -/
theorem executeQuery_cancel_before_identifier_not_honored :
    executeQueryAbortedEarly (.ok sampleRunning) [.ok sampleDone]
      = [QueryEvent.messageCallback sampleMessage,
         QueryEvent.pollRequest "q1",
         QueryEvent.completed sampleDone]
  ∧ (∀ ident, QueryEvent.cancelRequest ident
      ∉ executeQueryAbortedEarly (.ok sampleRunning) [.ok sampleDone])
  ∧ (executeQueryAbortedEarly (.ok sampleRunning) [.ok sampleDone]).filterMap
      deliveredMessage = [sampleMessage] := by
  refine ⟨by decide, ?_, by decide⟩
  intro ident h
  have heq : executeQueryAbortedEarly (.ok sampleRunning) [.ok sampleDone]
      = [QueryEvent.messageCallback sampleMessage,
         QueryEvent.pollRequest "q1",
         QueryEvent.completed sampleDone] := by decide
  rw [heq] at h
  simp at h

/-! ## Serializer guard and encoder evaluations -/

/-- C10: calling `ExportToCsv.writeRow` while no file handle is held (never
opened, or already closed) resolves successfully, changing nothing and
writing nothing. -/
theorem csv_writeRow_without_stream_is_noop (dp : DateParse)
    (cfg : ExportToCsv.Config) (st : ExportToCsv.State)
    (columns : List QueryColumn) (row : List JValue) (h : st.stream = false) :
    ExportToCsv.writeRow dp cfg st columns row = .ok st := by
  simp [ExportToCsv.writeRow, h]

/-- C10 witness: a concrete unopened serializer state. -/
theorem csv_writeRow_without_stream_is_noop_witness :
    ExportToCsv.writeRow dpZero {} ⟨false, []⟩ [] [.num 1] = .ok ⟨false, []⟩ :=
  csv_writeRow_without_stream_is_noop dpZero {} ⟨false, []⟩ [] [.num 1] rfl

/-- C4: evaluating the delimited-text cell encoder (default configuration:
`,` delimiter, `"` quote) at the value `a"b`, which contains the quote
character: the value is wrapped, but the internal quote is NOT doubled —
the encoder emits `"a"b"` instead of the `"a""b"` the claim demands,
because the `new RegExp(`/\\${q}/g`)` replacement matches the literal text
`/"/g` rather than quote characters.  The no-trigger and null cases behave
as claimed. -/
theorem csv_encodeValue_quote_not_doubled :
    ExportToCsv.encodeValue {} (some "a\"b") = "\"a\"b\""
  ∧ ExportToCsv.encodeValue {} (some "a\"b") ≠ "\"a\"\"b\""
  ∧ ExportToCsv.encodeValue {} none = "NULL"
  ∧ ExportToCsv.encodeValue {} (some "plain") = "plain" := by
  refine ⟨by decide, by decide, by decide, by decide⟩

/-! ## Session establishment failure modes -/

/-- C8: `Api.connect` fails with the invalid-credentials error on a 401
login response, with the protocol error when no `.ROCK` session cookie
can be extracted from an otherwise successful login response, and with the
negotiation error when the follow-up `Sql/Connect` call does not return
200; a `Session` value exists only when every step succeeded. -/
theorem connect_failure_modes (hostname : String) (login : Api.LoginResponse)
    (conn : Api.ConnectResponse) :
    (login.status = 401 →
      Api.connect hostname login conn = .error "Invalid username or password.")
  ∧ ((login.status = 200 ∨ login.status = 204) →
      Api.findRockCookie login.headers = none →
      Api.connect hostname login conn
        = .error "Invalid response received from the server.")
  ∧ (∀ cookie, (login.status = 200 ∨ login.status = 204) →
      Api.findRockCookie login.headers = some cookie →
      conn.status ≠ 200 →
      Api.connect hostname login conn
        = .error "Unable to negotiate connection with the server.")
  ∧ (∀ s, Api.connect hostname login conn = .ok s →
      login.status ≠ 401
      ∧ (login.status = 200 ∨ login.status = 204)
      ∧ (∃ cookie, Api.findRockCookie login.headers = some cookie)
      ∧ conn.status = 200) := by
  refine ⟨?_, ?_, ?_, ?_⟩
  · intro h
    simp [Api.connect, h]
  · intro hs hfc
    have h401 : ¬login.status = 401 := by omega
    have hok : ¬(login.status ≠ 200 ∧ login.status ≠ 204) := by omega
    by_cases hsc : Api.hasSetCookie login.headers
    · simp [Api.connect, h401, hok, hsc, hfc]
    · simp [Api.connect, h401, hok, hsc]
  · intro cookie hs hfc hconn
    have h401 : ¬login.status = 401 := by omega
    have hok : ¬(login.status ≠ 200 ∧ login.status ≠ 204) := by omega
    by_cases hsc : Api.hasSetCookie login.headers
    · simp [Api.connect, h401, hok, hsc, hfc, hconn]
    · have : Api.findRockCookie login.headers = none := by
        rw [Api.findRockCookie]
        have : login.headers.raw.find? (fun kv => jsToLower kv.1 == "set-cookie")
            = none := by
          rw [List.find?_eq_none]
          intro kv hkv hlow
          exact hsc (List.any_eq_true.mpr ⟨kv, hkv, hlow⟩)
        simp [this]
      rw [this] at hfc
      cases hfc
  · intro s h
    rw [Api.connect] at h
    by_cases h1 : login.status = 401
    · rw [if_pos h1] at h
      cases h
    rw [if_neg h1] at h
    by_cases h2 : login.status ≠ 200 ∧ login.status ≠ 204
    · rw [if_pos h2] at h
      cases h
    rw [if_neg h2] at h
    by_cases h3 : ¬Api.hasSetCookie login.headers
    · rw [if_pos h3] at h
      cases h
    rw [if_neg h3] at h
    rcases hfc : Api.findRockCookie login.headers with _ | cookie
    · rw [hfc] at h
      cases h
    · simp only [hfc] at h
      by_cases hconn : conn.status = 200
      · exact ⟨h1, by omega, ⟨cookie, rfl⟩, hconn⟩
      · rw [if_neg hconn] at h
        cases h

/-- C8 witness: the three failure scenarios at concrete responses (401
login; login without a `.ROCK` cookie; failed negotiation). -/
theorem connect_failure_modes_witness :
    Api.connect "example.org" { status := 401, headers := ⟨[]⟩ }
        { status := 200, body := {} }
      = .error "Invalid username or password."
  ∧ Api.connect "example.org" { status := 200, headers := ⟨[("X", ["y"])]⟩ }
        { status := 200, body := {} }
      = .error "Invalid response received from the server."
  ∧ Api.connect "example.org"
        { status := 200, headers := ⟨[("Set-Cookie", [".ROCK=tok; path=/"])]⟩ }
        { status := 500, body := {} }
      = .error "Unable to negotiate connection with the server." :=
  ⟨(connect_failure_modes _ _ _).1 rfl,
   (connect_failure_modes _ _ _).2.1 (Or.inl rfl) rfl,
   (connect_failure_modes _ _ _).2.2.1 ".ROCK=tok; path=/" (Or.inl rfl)
     (by decide) (by decide)⟩

/-! ## Row formatting lemmas -/

theorem getRowAux_null_position (dp : DateParse) (cols : List QueryColumn) :
    ∀ (row : List JValue) (k : Nat) (cells : List DbCellValue) (i : Nat),
      QueryRunner.getRowAux dp cols k row = .ok cells →
      (row[i]? = some .null ∨ row[i]? = some .undef) →
      cells[i]? = some QueryRunner.nullCell := by
  intro row
  induction row with
  | nil =>
    intro k cells i h hnull
    rcases hnull with hnull | hnull <;> simp at hnull
  | cons c rest ih =>
    intro k cells i h hnull
    rw [QueryRunner.getRowAux] at h
    by_cases hc : c = .null ∨ c = .undef
    · rw [if_pos hc] at h
      cases haux : QueryRunner.getRowAux dp cols (k + 1) rest with
      | error e =>
        rw [haux] at h
        cases h
      | ok cells0 =>
        rw [haux] at h
        simp only [Except.map, Except.ok.injEq] at h
        subst h
        cases i with
        | zero => simp
        | succ j =>
          simp only [List.getElem?_cons_succ] at hnull ⊢
          exact ih (k + 1) cells0 j haux hnull
    · rw [if_neg hc] at h
      cases hcol : cols[k]? with
      | none =>
        rw [hcol] at h
        cases h
      | some col =>
        rw [hcol] at h
        cases haux : QueryRunner.getRowAux dp cols (k + 1) rest with
        | error e =>
          rw [haux] at h
          cases h
        | ok cells0 =>
          rw [haux] at h
          simp only [Except.map, Except.ok.injEq] at h
          subst h
          cases i with
          | zero =>
            simp only [List.getElem?_cons_zero, Option.some.injEq] at hnull
            exact absurd hnull hc
          | succ j =>
            simp only [List.getElem?_cons_succ] at hnull ⊢
            exact ih (k + 1) cells0 j haux hnull

/-- C5: the two null conventions hold at their respective call sites — the
direct display path (`getCellDisplayValue`) renders `null`/`undefined` raw
values as the literal string `null` for every semantic column type, while
the result-store row formatting (`QueryRunner.getRow`) turns a
`null`/`undefined` raw cell into a null-flagged cell with empty display
text. -/
theorem null_formatting_two_conventions :
    (∀ (dp : DateParse) (t : QueryColumnType),
      getCellDisplayValue dp t .null = "null"
      ∧ getCellDisplayValue dp t .undef = "null")
  ∧ (∀ (dp : DateParse) (cols : List QueryColumn) (row : List JValue)
      (cells : List DbCellValue) (i : Nat),
      QueryRunner.getRow dp cols row = .ok cells →
      (row[i]? = some .null ∨ row[i]? = some .undef) →
      cells[i]? = some { displayValue := "", isNull := true,
                         invariantCultureDisplayValue := "" }) := by
  constructor
  · intro dp t
    constructor <;> simp [getCellDisplayValue]
  · intro dp cols row cells i h hnull
    exact getRowAux_null_position dp cols row 0 cells i h hnull

/-- C5 witness: a concrete row whose first cell is `null` and second is
`undefined`. -/
theorem null_formatting_two_conventions_witness :
    getCellDisplayValue dpZero .DateTime .null = "null"
  ∧ ([QueryRunner.nullCell, QueryRunner.nullCell,
      QueryRunner.valueCell dpZero { name := "n", type := .Number } (.num 3)] :
        List DbCellValue)[1]?
      = some { displayValue := "", isNull := true,
               invariantCultureDisplayValue := "" } := by
  refine ⟨(null_formatting_two_conventions.1 dpZero .DateTime).1, ?_⟩
  exact null_formatting_two_conventions.2 dpZero
    [{ name := "a", type := .Number }, { name := "b", type := .String },
     { name := "n", type := .Number }]
    [.null, .undef, .num 3] _ 1 (by rfl) (Or.inr (by rfl))

/-! ## Structured-record serializer -/

/-- C7 counterexample: the structured-record serializer stores the RAW
cell value, not the formatted one.  With a `Boolean` column and the raw
value `true`, the accumulated record holds the boolean `true`, whereas the
formatted value is the string `1`. -/
theorem json_writeRow_stores_raw_not_formatted :
    (ExportToJson.writeRow
        (ExportToJson.openSerializer
          { columns := [{ name := "b", type := .Boolean }], rows := [] }
          ExportToJson.initial)
        [{ name := "b", type := .Boolean }] [.bool true]).dataObject
      = [[("b", JValue.bool true)]]
  ∧ getCellDisplayValue dpZero .Boolean (.bool true) = "1"
  ∧ JValue.bool true ≠ JValue.str "1" := by
  refine ⟨by decide, by decide, by decide⟩

theorem buildRecord_foldl (names : List String) :
    ∀ (row : List JValue) (acc : List (String × JValue)),
      names.Nodup → (∀ kv ∈ acc, kv.1 ∉ names) →
      (names.zip row).foldl
          (fun obj kv =>
            ExportToJson.objSet obj kv.1
              (if kv.2 = .null ∨ kv.2 = .undef then .null else kv.2))
          acc
        = acc ++ (names.zip row).map
            fun kv => (kv.1, if kv.2 = .null ∨ kv.2 = .undef then JValue.null else kv.2) := by
  induction names with
  | nil =>
    intro row acc _ _
    simp
  | cons n ns ih =>
    intro row acc hnd hdisj
    cases row with
    | nil => simp
    | cons v vs =>
      simp only [List.zip_cons_cons, List.foldl_cons, List.map_cons]
      have hany : acc.any (fun kv => kv.1 == n) = false := by
        rw [List.any_eq_false]
        intro kv hkv
        simp only [beq_iff_eq]
        intro he
        exact hdisj kv hkv (he ▸ List.mem_cons_self n ns)
      have hset : ExportToJson.objSet acc n
          (if v = .null ∨ v = .undef then .null else v)
          = acc ++ [(n, if v = .null ∨ v = .undef then JValue.null else v)] := by
        rw [ExportToJson.objSet, if_neg (by simp [hany])]
      rw [hset, ih vs _ (List.Nodup.of_cons hnd) ?_]
      · simp
      · intro kv hkv
        rcases List.mem_append.mp hkv with hkv | hkv
        · exact fun hm => hdisj kv hkv (List.mem_cons_of_mem n hm)
        · simp only [List.mem_singleton] at hkv
          subst hkv
          exact (List.nodup_cons.mp hnd).1

/-- C7 amended: each `writeRow` call appends exactly one record — mapping
each column name to that row's RAW value, or `null` for `null`/`undefined`
raw cells — performing no write; `close` on an open serializer performs
exactly one write holding the whole accumulated collection rendered as a
single 2-space-indented document, and releases the handle. -/
theorem json_serializer_accumulates_and_writes_once
    (st : ExportToJson.State) (cols : List QueryColumn) (row : List JValue) :
    (ExportToJson.writeRow st cols row).writes = st.writes
  ∧ (ExportToJson.writeRow st cols row).dataObject
      = st.dataObject ++ [ExportToJson.buildRecord st.columnNames row]
  ∧ (st.columnNames.Nodup →
      ExportToJson.buildRecord st.columnNames row
        = (st.columnNames.zip row).map
            fun kv => (kv.1, if kv.2 = .null ∨ kv.2 = .undef then JValue.null else kv.2))
  ∧ (st.stream = true →
      (ExportToJson.closeSerializer st).writes
        = st.writes ++ [ExportToJson.jsonStringifyRecords st.dataObject]
      ∧ (ExportToJson.closeSerializer st).stream = false)
  ∧ (st.stream = false → ExportToJson.closeSerializer st = st) := by
  refine ⟨rfl, rfl, ?_, ?_, ?_⟩
  · intro hnd
    rw [ExportToJson.buildRecord]
    exact buildRecord_foldl st.columnNames row [] hnd (by simp)
  · intro hs
    rw [ExportToJson.closeSerializer, if_pos hs]
    exact ⟨rfl, rfl⟩
  · intro hs
    rw [ExportToJson.closeSerializer, if_neg (by simp [hs])]

/-- C7 witness: a concrete open serializer with two columns; one write-row
then close. -/
theorem json_serializer_accumulates_and_writes_once_witness :
    (ExportToJson.writeRow
        { columnNames := ["a", "b"], stream := true, dataObject := [], writes := [] }
        [] [.num 2, .null]).writes = []
  ∧ (ExportToJson.writeRow
        { columnNames := ["a", "b"], stream := true, dataObject := [], writes := [] }
        [] [.num 2, .null]).dataObject
      = [ExportToJson.buildRecord ["a", "b"] [.num 2, .null]]
  ∧ ExportToJson.buildRecord ["a", "b"] [.num 2, .null]
      = [("a", JValue.num 2), ("b", JValue.null)]
  ∧ (ExportToJson.closeSerializer
        { columnNames := ["a", "b"], stream := true,
          dataObject := [[("a", JValue.num 2), ("b", JValue.null)]], writes := [] }).writes
      = [ExportToJson.jsonStringifyRecords [[("a", JValue.num 2), ("b", JValue.null)]]] := by
  have h := json_serializer_accumulates_and_writes_once
    { columnNames := ["a", "b"], stream := true, dataObject := [], writes := [] }
    [] [.num 2, .null]
  have h2 := json_serializer_accumulates_and_writes_once
    { columnNames := ["a", "b"], stream := true,
      dataObject := [[("a", JValue.num 2), ("b", JValue.null)]], writes := [] }
    [] []
  refine ⟨h.1, ?_, ?_, ?_⟩
  · rw [h.2.1]
    simp
  · rw [h.2.2.1 (by decide)]
    decide
  · rw [(h2.2.2.2.1 rfl).1]
    simp

/-! ## Result-set range retrieval -/

theorem getRowAux_ok_of_le (dp : DateParse) (cols : List QueryColumn) :
    ∀ (row : List JValue) (k : Nat), k + row.length ≤ cols.length →
      ∃ cells, QueryRunner.getRowAux dp cols k row = .ok cells
        ∧ cells.length = row.length := by
  intro row
  induction row with
  | nil =>
    intro k _
    exact ⟨[], rfl, rfl⟩
  | cons c rest ih =>
    intro k hk
    simp only [List.length_cons] at hk
    rcases ih (k + 1) (by omega) with ⟨cells0, haux, hlen⟩
    by_cases hc : c = .null ∨ c = .undef
    · refine ⟨QueryRunner.nullCell :: cells0, ?_, by simp [hlen]⟩
      rw [QueryRunner.getRowAux, if_pos hc, haux]
      rfl
    · have hcol : cols[k]? = some cols[k] :=
        List.getElem?_eq_getElem (by omega)
      refine ⟨QueryRunner.valueCell dp cols[k] c :: cells0, ?_, by simp [hlen]⟩
      rw [QueryRunner.getRowAux, if_neg hc, hcol, haux]
      rfl

theorem getRow_ok_of_le (dp : DateParse) (cols : List QueryColumn)
    (row : List JValue) (h : row.length ≤ cols.length) :
    ∃ cells, QueryRunner.getRow dp cols row = .ok cells
      ∧ cells.length = row.length :=
  getRowAux_ok_of_le dp cols row 0 (by omega)

theorem mapM_except_ok_of_forall {α β ε : Type} (f : α → Except ε β) :
    ∀ l : List α, (∀ a ∈ l, ∃ b, f a = .ok b) →
      ∃ out, l.mapM f = .ok out ∧ out.length = l.length
        ∧ ∀ (i : Nat) (a : α), l[i]? = some a →
            ∃ b, f a = .ok b ∧ out[i]? = some b := by
  intro l
  induction l with
  | nil =>
    intro _
    refine ⟨[], rfl, rfl, ?_⟩
    intro i a ha
    simp at ha
  | cons x xs ih =>
    intro hall
    rcases hall x (List.mem_cons_self x xs) with ⟨b, hb⟩
    rcases ih (fun a ha => hall a (List.mem_cons_of_mem x ha)) with
      ⟨out, hout, hlen, hidx⟩
    refine ⟨b :: out, ?_, by simp [hlen], ?_⟩
    · rw [List.mapM_cons, hb, hout]
      rfl
    · intro i a ha
      cases i with
      | zero =>
        simp only [List.getElem?_cons_zero, Option.some.injEq] at ha
        subst ha
        exact ⟨b, hb, by simp⟩
      | succ j =>
        simp only [List.getElem?_cons_succ] at ha ⊢
        exact hidx j a ha

/-- C3 counterexample: for a completed query with exactly one result set,
requesting result-set index 1 — which is out of bounds — does not fail
with either index-out-of-range error of the runner (`Result set was not
found.` / `Requested rows do not exist.`): the strict `>` guard lets the
index through and the subsequent dereference of `undefined` raises a
`TypeError` instead. -/
theorem getResultSet_oob_index_is_typeError :
    QueryRunner.getResultSet dpZero (some sampleResult) 1 0 0
      = .error .typeError
  ∧ RunnerError.typeError ≠ RunnerError.resultSetNotFound
  ∧ RunnerError.typeError ≠ RunnerError.requestedRowsDoNotExist := by
  refine ⟨by rfl, by decide, by decide⟩

/-- C3 amended: for a completed query, `getResultSet` fails with the
index-out-of-range error `Result set was not found.` only when the
result-set index strictly exceeds the number of result sets; an index
equal to the count instead fails with a runtime `TypeError`; it fails with
`Requested rows do not exist.` when `startRow + count` exceeds the
selected set's row count; and otherwise it succeeds, returning exactly
`count` formatted rows — the rows at positions
`[startRow, startRow + count)`. -/
theorem getResultSet_bounds (dp : DateParse) (res : ExecuteQueryProgress)
    (sets : List QueryResultSet) (idx start count : Nat)
    (hsets : res.resultSets = some sets) :
    (idx > sets.length →
      QueryRunner.getResultSet dp (some res) idx start count
        = .error .resultSetNotFound)
  ∧ (idx = sets.length →
      QueryRunner.getResultSet dp (some res) idx start count
        = .error .typeError)
  ∧ (∀ rs, sets[idx]? = some rs → start + count > rs.rows.length →
      QueryRunner.getResultSet dp (some res) idx start count
        = .error .requestedRowsDoNotExist)
  ∧ (∀ rs, sets[idx]? = some rs → start + count ≤ rs.rows.length →
      (∀ r ∈ rs.rows, r.length ≤ rs.columns.length) →
      ∃ out, QueryRunner.getResultSet dp (some res) idx start count
          = .ok { message := "", resultSubset := { rowCount := count, rows := out } }
        ∧ out.length = count
        ∧ ∀ i, i < count →
            ∃ r cells, rs.rows[start + i]? = some r
              ∧ QueryRunner.getRow dp rs.columns r = .ok cells
              ∧ out[i]? = some cells) := by
  refine ⟨?_, ?_, ?_, ?_⟩
  · intro hgt
    rw [QueryRunner.getResultSet]
    simp only [hsets]
    rw [if_pos hgt]
  · intro heq
    have hnone : sets[idx]? = none := by
      rw [List.getElem?_eq_none]
      omega
    rw [QueryRunner.getResultSet]
    simp only [hsets, hnone]
    rw [if_neg (by omega)]
  · intro rs hrs hover
    have hlt : idx < sets.length := by
      by_contra hge
      rw [List.getElem?_eq_none (by omega)] at hrs
      cases hrs
    rw [QueryRunner.getResultSet]
    simp only [hsets, hrs]
    rw [if_neg (by omega), if_pos hover]
  · intro rs hrs hle hwf
    have hlt : idx < sets.length := by
      by_contra hge
      rw [List.getElem?_eq_none (by omega)] at hrs
      cases hrs
    have hslice : ∀ r ∈ (rs.rows.drop start).take count,
        ∃ cells, QueryRunner.getRow dp rs.columns r = .ok cells := by
      intro r hr
      have hmem : r ∈ rs.rows :=
        List.mem_of_mem_drop (List.mem_of_mem_take hr)
      rcases getRow_ok_of_le dp rs.columns r (hwf r hmem) with ⟨cells, hc, _⟩
      exact ⟨cells, hc⟩
    rcases mapM_except_ok_of_forall (QueryRunner.getRow dp rs.columns)
      ((rs.rows.drop start).take count) hslice with ⟨out, hout, hlen, hidx⟩
    have hslicelen : ((rs.rows.drop start).take count).length = count := by
      simp only [List.length_take, List.length_drop]
      omega
    refine ⟨out, ?_, by omega, ?_⟩
    · rw [QueryRunner.getResultSet]
      simp only [hsets, hrs]
      rw [if_neg (by omega), if_neg (by omega), hout]
      rfl
    · intro i hi
      have hsome : ((rs.rows.drop start).take count)[i]?
          = rs.rows[start + i]? := by
        rw [List.getElem?_take, if_pos hi, List.getElem?_drop]
      have hr : ∃ r, rs.rows[start + i]? = some r := by
        have : start + i < rs.rows.length := by omega
        exact ⟨rs.rows[start + i], List.getElem?_eq_getElem this⟩
      rcases hr with ⟨r, hr⟩
      rcases hidx i r (by rw [hsome, hr]) with ⟨cells, hc, ho⟩
      exact ⟨r, cells, hr, hc, ho⟩

/-- C3 witness: the one-result-set fixture — strictly-greater index fails
with the not-found error, an over-long range fails with the row-range
error, and a valid request succeeds. -/
theorem getResultSet_bounds_witness :
    QueryRunner.getResultSet dpZero (some sampleResult) 2 0 0
      = .error .resultSetNotFound
  ∧ QueryRunner.getResultSet dpZero (some sampleResult) 0 1 2
      = .error .requestedRowsDoNotExist
  ∧ (QueryRunner.getResultSet dpZero (some sampleResult) 0 0 2).isOk = true := by
  have h := getResultSet_bounds dpZero sampleResult
    [{ columns := [{ name := "n", type := .Number },
                   { name := "s", type := .String }]
       rows := [[.num 7, .str "a"], [.null, .str "b"]] }]
  refine ⟨(h 2 0 0 rfl).1 (by decide), (h 0 1 2 rfl).2.2.1 _ rfl (by decide), ?_⟩
  rcases (h 0 0 2 rfl).2.2.2 _ rfl (by decide) (by decide) with ⟨out, hout, _, _⟩
  rw [hout]
  rfl

/-! ## The value formatter over the six semantic types -/

theorem digitChars_length_eq_repr (n : Nat) :
    (digitChars n).length = (Nat.repr n).length := by
  show (digitChars n).length = (Nat.repr n).data.length
  rw [repr_data_eq_digitChars]

theorem paddedDigits_length {n k : Nat} (hk : 0 < k) (h : n < 10 ^ k) :
    (paddedDigits n k).length = k := by
  have hle : (Nat.repr n).length ≤ k := Nat.repr_length n k hk h
  rw [paddedDigits, List.length_append, List.length_replicate,
    digitChars_length_eq_repr]
  omega

/-- For in-range local fields the rendering is the fixed-width 23-character
`YYYY-MM-DD HH:MM:SS.mmm` layout. -/
theorem getDateDisplayFormat_length (f : DateFields) (hy : f.year < 10000)
    (hmo : f.month + 1 < 100) (hd : f.day < 100) (hh : f.hours < 100)
    (hmi : f.minutes < 100) (hs : f.seconds < 100)
    (hms : f.milliseconds < 1000) :
    (getDateDisplayFormat f).length = 23 := by
  show (getDateDisplayFormat f).data.length = 23
  rw [getDateDisplayFormat_data]
  simp only [List.length_append, List.length_cons]
  rw [paddedDigits_length (by omega) (show f.year < 10 ^ 4 by omega),
    paddedDigits_length (by omega) (show f.month + 1 < 10 ^ 2 by omega),
    paddedDigits_length (by omega) (show f.day < 10 ^ 2 by omega),
    paddedDigits_length (by omega) (show f.hours < 10 ^ 2 by omega),
    paddedDigits_length (by omega) (show f.minutes < 10 ^ 2 by omega),
    paddedDigits_length (by omega) (show f.seconds < 10 ^ 2 by omega),
    paddedDigits_length (by omega) (show f.milliseconds < 10 ^ 3 by omega)]

/-- C6: the formatter is total over the six semantic types: for every
defined raw value, `String`/`Number`/`ByteArray`/`Unknown` columns render
the value's natural textual representation, `Boolean` columns render `1`
for truthy and `0` for falsy values, and `DateTime` columns parse the raw
value through the environment's date parsing and render the local fields
in the canonical zero-padded `YYYY-MM-DD HH:MM:SS.mmm` layout — reading
that rendering back recovers every local field to millisecond precision,
and for in-range fields it is exactly 23 characters wide. -/
theorem getCellDisplayValue_total_spec (dp : DateParse) (v : JValue)
    (hv1 : v ≠ .null) (hv2 : v ≠ .undef) :
    (∀ t, t = .String ∨ t = .Number ∨ t = .ByteArray ∨ t = .Unknown →
      getCellDisplayValue dp t v = jsToString v)
  ∧ getCellDisplayValue dp .Boolean v = (if jsTruthy v then "1" else "0")
  ∧ getCellDisplayValue dp .DateTime v
      = getDateDisplayFormat (dp (jsToString v))
  ∧ parseCanonicalDateString (getCellDisplayValue dp .DateTime v)
      = some (dp (jsToString v))
  ∧ (∀ f : DateFields, f.year < 10000 → f.month + 1 < 100 → f.day < 100 →
      f.hours < 100 → f.minutes < 100 → f.seconds < 100 →
      f.milliseconds < 1000 → (getDateDisplayFormat f).length = 23) := by
  have hcond : ¬(v = .undef ∨ v = .null) := by
    rintro (h | h)
    · exact hv2 h
    · exact hv1 h
  refine ⟨?_, ?_, ?_, ?_, ?_⟩
  · rintro t (rfl | rfl | rfl | rfl) <;> simp [getCellDisplayValue, hcond]
  · simp [getCellDisplayValue, hcond]
  · simp [getCellDisplayValue, hcond]
  · rw [show getCellDisplayValue dp .DateTime v
        = getDateDisplayFormat (dp (jsToString v)) by
      simp [getCellDisplayValue, hcond]]
    exact parseCanonical_getDateDisplayFormat (dp (jsToString v))
  · intro f h1 h2 h3 h4 h5 h6 h7
    exact getDateDisplayFormat_length f h1 h2 h3 h4 h5 h6 h7

/-- C6 witness: concrete values for each branch — a truthy string under
`Boolean`, the same string under `String`, the `DateTime` rendering read
back through the canonical reader, and the fixed 23-character width at a
concrete date. -/
theorem getCellDisplayValue_total_spec_witness :
    getCellDisplayValue dpZero .Boolean (.str "x") = "1"
  ∧ getCellDisplayValue dpZero .String (.str "x") = "x"
  ∧ parseCanonicalDateString (getCellDisplayValue dpZero .DateTime (.str "x"))
      = some ⟨0, 0, 0, 0, 0, 0, 0⟩
  ∧ (getDateDisplayFormat ⟨2023, 4, 7, 9, 30, 5, 42⟩).length = 23 := by
  have h := getCellDisplayValue_total_spec dpZero (.str "x") (by decide)
    (by decide)
  refine ⟨?_, ?_, ?_, ?_⟩
  · rw [h.2.1]
    decide
  · rw [h.1 .String (Or.inl rfl)]
    decide
  · exact h.2.2.2.1
  · exact h.2.2.2.2 ⟨2023, 4, 7, 9, 30, 5, 42⟩ (by decide) (by decide)
      (by decide) (by decide) (by decide) (by decide) (by decide)

end Magnus
